import Mathlib

/-!
Verification of the `traveling_rustling` TSPTW solver specification against
its Rust source.  Shallow embedding: `chrono::DateTime<Utc>` is an `Int`
(Unix seconds), `chrono::Duration` is an `Int` (seconds), `chrono::NaiveTime`
is an `Int` in `[0, 86400)` (seconds since midnight), `chrono::NaiveDate` is
an `Int` (days since the Unix epoch; 1970-01-01 was a Thursday, so
`num_days_from_monday = (day + 3) % 7`, Euclidean mod).  Panics of the Rust code
(`Vec` index out of bounds, `Option::unwrap` on `None`, `unreachable!`) are
modelled in an `Except RunError` monad, and the source's `while` loops by
structural recursion on a fuel counter (`RunError.fuel` marks exhaustion,
which the Rust code has no counterpart for).
-/

namespace TravelingRustling

/-- Failure modes of the embedded code.  The first three correspond to real
panics of the Rust source; `fuel` only marks exhaustion of the embedding's
fuel counter. -/
inductive RunError where
  | indexOOB
  | unwrapNone
  | unreachable
  | fuel
  deriving DecidableEq, Repr

/-- Seconds since midnight of an instant; `chrono`'s `DateTime::time()`. -/
def todOf (t : Int) : Int := t % 86400

/-- Day number of an instant; `chrono`'s `DateTime::date_naive()`. -/
def dayOf (t : Int) : Int := t / 86400

/-- Weekday of a day number, counted from Monday = 0;
`chrono`'s `Weekday::num_days_from_monday`. -/
def weekdayOf (day : Int) : Int := (day + 3) % 7

/-- src/penalties/time/time_windows.rs: `TimeWindow { start, end }`.
The Rust field `end` is a Lean keyword, so it is called `stop` here. -/
structure TimeWindow where
  start : Int
  stop : Int
  deriving DecidableEq, Repr

namespace TimeWindow

/-- src: `TimeWindow::duration`. -/
def duration (tw : TimeWindow) : Int := tw.stop - tw.start

/-- src: `TimeWindow::contains` (closed interval). -/
def contains (tw : TimeWindow) (time : Int) : Bool :=
  decide (tw.start ≤ time) && decide (time ≤ tw.stop)

/-- src: `TimeWindow::lateness`. -/
def lateness (tw : TimeWindow) (time : Int) : Int :=
  if time > tw.stop then time - tw.stop else 0

end TimeWindow

/-- src/penalties/time/time_windows.rs: `TimeWindows`. -/
structure TimeWindows where
  windows : List TimeWindow
  deriving DecidableEq, Repr

/-- Loop of Rust `core`'s branchless `slice::binary_search_by` (the version
shipped since Rust 1.52): narrow `(base, size)` keeping `base` at `mid`
whenever the probed element is not greater than the target.  `ends` is the
list of probed keys, compared with `target` by `Int` order.  Structural
recursion on a fuel counter; the caller passes `fuel = ends.length`, which
is enough because `size` at least halves each step. -/
def bsLoop (ends : List Int) (target : Int) : Nat → Nat → Nat → Nat
  | 0, base, _ => base
  | fuel + 1, base, size =>
    if size ≤ 1 then base
    else if target < ends.getD (base + size / 2) 0 then
      bsLoop ends target fuel base (size - size / 2)
    else
      bsLoop ends target fuel (base + size / 2) (size - size / 2)

/-- Rust `core`'s `slice::binary_search_by` applied to the comparator
`|w| w.cmp(&target)` on a sorted key list: `.ok i` is Rust's `Ok(i)`
(key equal to target at `i`), `.error i` is `Err(i)` (insertion point). -/
def binarySearchBy (ends : List Int) (target : Int) : Except Nat Nat :=
  if ends.length = 0 then .error 0
  else
    let base := bsLoop ends target ends.length 0 ends.length
    let v := ends.getD base 0
    if v = target then .ok base
    else if v < target then .error (base + 1)
    else .error base

namespace TimeWindows

/-- src: `TimeWindows::is_empty`. -/
def isEmpty (tws : TimeWindows) : Bool := tws.windows.isEmpty

/-- src: `TimeWindows::len`. -/
def len (tws : TimeWindows) : Nat := tws.windows.length

/-- The `index` computed inside `TimeWindows::find_next_fitting_time`:
binary-search result on the window ends, `Ok(i) ↦ i + 1`, `Err(i) ↦ i`. -/
def searchIndex (tws : TimeWindows) (current_time : Int) : Nat :=
  match binarySearchBy (tws.windows.map (fun w => w.stop)) current_time with
  | .ok i => i + 1
  | .error i => i

/-- src: `TimeWindows::find_next_fitting_time`.  Binary-search on window ends
for the first window still usable at `current_time`; with `must_fit = false`
clip to that single window, with `must_fit = true` scan forward for a window
whose full duration fits `job_duration`. -/
def find_next_fitting_time (tws : TimeWindows) (current_time job_duration : Int)
    ( must_fit : Bool) : Option TimeWindow :=
  if tws.windows.isEmpty then none
  else
    let index : Nat := tws.searchIndex current_time
    if index = tws.windows.length then none
    else
      match must_fit with
      | false =>
        let w := tws.windows.getD index ⟨0, 0⟩
        let start := max w.start current_time
        some ⟨start, start + min w.duration job_duration⟩
      | true =>
        ((tws.windows.drop index).find? (fun w => w.duration ≥ job_duration)).map
          (fun w => ⟨max w.start current_time, max w.start current_time + job_duration⟩)

/-- src: `TimeWindows::lateness` — lateness against the last window only. -/
def lateness (tws : TimeWindows) (time : Int) : Int :=
  match tws.windows.getLast? with
  | none => 0
  | some w => w.lateness time

end TimeWindows

/-- src/penalties/time/operation_times.rs: `WorkingDays`, holding the
precomputed `next_day_cache` (weekday numbers counted from Monday). -/
structure WorkingDays where
  next_day_cache : List Nat
  deriving DecidableEq, Repr

/-- src: `WorkingDays::new`.  `working_days` is the list of working weekday
numbers; the cache entry for weekday `i` is the first of `(i+1)%7 … (i+6)%7`
that is a working day, and keeps the initial value `Mon = 0` when none of
those six days works (the day `i` itself is never probed). -/
def WorkingDays.new (working_days : List Nat) : WorkingDays :=
  let days : List Bool := (List.range 7).map (fun i => working_days.contains i)
  ⟨(List.range 7).map (fun i =>
    match (List.range' 1 6).find? (fun j => days.getD ((i + j) % 7) false) with
    | some j => (i + j) % 7
    | none => 0)⟩

/-- src: `WorkingDays::next_working_day` on a day number: add
`(cache[weekday] - weekday).rem_euclid(7)` days, replacing 0 by 7. -/
def WorkingDays.next_working_day (wd : WorkingDays) (date : Int) : Int :=
  let w : Nat := (weekdayOf date).toNat
  let next_day : Int := Int.ofNat (wd.next_day_cache.getD w 0)
  let days_to_add : Int := (next_day - Int.ofNat w) % 7
  date + (if days_to_add = 0 then 7 else days_to_add)

/-- src/penalties/time/operation_times.rs: `OperationTimes`.
`daily_start` and `daily_end` are seconds since midnight (`NaiveTime`);
the constructor asserts `daily_start < daily_end`. -/
structure OperationTimes where
  daily_start : Int
  daily_end : Int
  working_days : Option WorkingDays
  deriving DecidableEq, Repr

namespace OperationTimes

/-- src: `OperationTimes::duration`. -/
def duration (ot : OperationTimes) : Int := ot.daily_end - ot.daily_start

/-- src: `OperationTimes::contains` — compares only the time of day with
`[daily_start, daily_end)`; the working-days mask is not consulted. -/
def contains (ot : OperationTimes) (time : Int) : Bool :=
  decide (ot.daily_start ≤ todOf time) && decide (todOf time < ot.daily_end)

/-- src: `OperationTimes::next_day` — next working day after `current_time`
when a mask is present, otherwise simply the date of `current_time + 1 day`. -/
def next_day (ot : OperationTimes) (current_time : Int) : Int :=
  match ot.working_days with
  | some wd => wd.next_working_day (dayOf current_time)
  | none => dayOf (current_time + 86400)

/-- src: `OperationTimes::start_next_day`. -/
def start_next_day (ot : OperationTimes) (current_time : Int) : Int :=
  ot.next_day current_time * 86400 + ot.daily_start

/-- src: `OperationTimes::waiting_time`. -/
def waiting_time (ot : OperationTimes) (current_time : Int) : Int :=
  if ot.contains current_time then 0
  else if todOf current_time < ot.daily_start then ot.daily_start - todOf current_time
  else ot.start_next_day current_time - current_time

/-- src: `OperationTimes::find_next_fitting_time`.  Wait to the next open
instant, clip at the same day's `daily_end`; with `must_fit = true` retry at
the start of the next working day, or give up when the job exceeds a full
daily span. -/
def find_next_fitting_time (ot : OperationTimes) (current_time job_duration : Int)
    ( must_fit : Bool) : Option TimeWindow :=
  let waiting := ot.waiting_time current_time
  let start_time := current_time + waiting
  let end_time := min (start_time + job_duration) (dayOf start_time * 86400 + ot.daily_end)
  let result_tw : TimeWindow := ⟨start_time, end_time⟩
  match must_fit with
  | false => some result_tw
  | true =>
    if result_tw.duration = job_duration then some result_tw
    else if job_duration > ot.duration then none
    else
      let s := ot.start_next_day current_time
      some ⟨s, s + job_duration⟩

end OperationTimes

/-- src/penalties/time/time_input.rs: `TimeInput`.  Durations are seconds. -/
structure TimeInput where
  duration_matrix : List (List Int)
  job_durations : List Int
  time_windows : List TimeWindows
  operation_times : Option OperationTimes
  travel_duration_until_break : Option Nat
  break_duration : Option Nat

/-- src/penalties/time/time_output.rs: `Event`. -/
inductive Event where
  | Work (tw : TimeWindow) (location : Nat)
  | Travel (tw : TimeWindow)
  | Wait (tw : TimeWindow)
  deriving DecidableEq, Repr

/-- src/penalties/time/time_output.rs: `TimeOutput` (the completion-state
phantom parameter has no runtime content and is dropped). -/
structure TimeOutput where
  start_time : Int
  end_time : Int
  duration : Int
  lateness : Int
  working_time : Int
  waiting_time : Int
  traveling_time : Int
  job_splits : Nat
  schedule : List Event
  deriving DecidableEq, Repr

namespace TimeOutput

/-- src: `TimeOutput::new`. -/
def new (start_time : Int) : TimeOutput :=
  ⟨start_time, start_time, 0, 0, 0, 0, 0, 0, []⟩

/-- src: `TimeOutput::add_waiting`. -/
def add_waiting (o : TimeOutput) (tw : TimeWindow) (build_schedule : Bool) : TimeOutput :=
  { o with
    waiting_time := o.waiting_time + tw.duration
    end_time := o.end_time + tw.duration
    duration := o.duration + tw.duration
    schedule := if build_schedule then o.schedule ++ [Event.Wait tw] else o.schedule }

/-- src: `TimeOutput::add_traveling`. -/
def add_traveling (o : TimeOutput) (tw : TimeWindow) (build_schedule : Bool) : TimeOutput :=
  { o with
    traveling_time := o.traveling_time + tw.duration
    end_time := o.end_time + tw.duration
    duration := o.duration + tw.duration
    schedule := if build_schedule then o.schedule ++ [Event.Travel tw] else o.schedule }

/-- src: `TimeOutput::add_working`. -/
def add_working (o : TimeOutput) (location : Nat) (tw : TimeWindow) (build_schedule : Bool) :
    TimeOutput :=
  { o with
    working_time := o.working_time + tw.duration
    end_time := o.end_time + tw.duration
    duration := o.duration + tw.duration
    schedule := if build_schedule then o.schedule ++ [Event.Work tw location] else o.schedule }

/-- src: `TimeOutput::add_split`. -/
def add_split (o : TimeOutput) : TimeOutput :=
  { o with job_splits := o.job_splits + 1 }

/-- src: `TimeOutput::add_lateness`. -/
def add_lateness (o : TimeOutput) (lateness : Int) : TimeOutput :=
  { o with lateness := o.lateness + lateness }

/-- src: `TimeOutput::complete` — freezes the accumulator (pure marker-state
change; all fields are copied unchanged). -/
def complete (o : TimeOutput) : TimeOutput := o

end TimeOutput

/-- Embeds an `Option`al lookup as a possibly-panicking computation. -/
def exceptOfOption (e : RunError) : Option α → Except RunError α
  | some a => .ok a
  | none => .error e

namespace WorkingTimePenalizer

/-- src/penalties/time.rs: `WorkingTimePenalizer::add_waiting` — only a
strictly positive gap is recorded. -/
def add_waiting (o : TimeOutput) (build : Bool) (d : Int) : TimeOutput :=
  if d > 0 then o.add_waiting ⟨o.end_time, o.end_time + d⟩ build else o

/-- src: `WorkingTimePenalizer::add_job` — wait up to the window start, then
work through the window. -/
def add_job (o : TimeOutput) (build : Bool) (location : Nat) (tw : TimeWindow) : TimeOutput :=
  (add_waiting o build (tw.start - o.end_time)).add_working location tw build

/-- src: `WorkingTimePenalizer::add_travel`. -/
def add_travel (o : TimeOutput) (build : Bool) (tw : TimeWindow) : TimeOutput :=
  (add_waiting o build (tw.start - o.end_time)).add_traveling tw build

/-- The `while !job_completed` loop of `WorkingTimePenalizer::execute_job`.
`mot` is `time_input.operation_times`, unwrapped each iteration as in the
source (a missing value panics, modelled as `RunError.unwrapNone`). -/
def jobLoop (tws : TimeWindows) (mot : Option OperationTimes) (build : Bool) (location : Nat) :
    Nat → Int → Int → Bool → TimeOutput → Except RunError TimeOutput
  | 0, _, _, _, _ => .error .fuel
  | fuel + 1, job_duration, current_time, must_fit, o =>
    match mot with
    | none => .error .unwrapNone
    | some ot =>
      let maybe_next_time_tw := tws.find_next_fitting_time current_time job_duration must_fit
      let maybe_next_time_op := ot.find_next_fitting_time current_time job_duration must_fit
      match maybe_next_time_tw, maybe_next_time_op with
      | some next_time_tw, some next_time_op =>
        if next_time_tw = next_time_op then
          let job_duration := job_duration - next_time_tw.duration
          let o := add_job o build location next_time_tw
          if job_duration = 0 then .ok o
          else jobLoop tws mot build location fuel job_duration o.end_time must_fit o
        else
          jobLoop tws mot build location fuel job_duration
            (max next_time_op.start next_time_tw.start) must_fit o
      | none, some next_time_op =>
        let job_duration := job_duration - next_time_op.duration
        let o := add_job o build location next_time_op
        if job_duration = 0 then .ok o
        else jobLoop tws mot build location fuel job_duration o.end_time must_fit o
      | _, none =>
        let o := o.add_split
        jobLoop tws mot build location fuel job_duration o.end_time false o

/-- src: `WorkingTimePenalizer::execute_job`.  The lookups of
`job_durations[location]` and `time_windows[location]` are hoisted out of the
loop (the loop body always runs at least once, so a panicking lookup panics
either way); after the loop the lateness against the location's windows is
added. -/
def executeJob (ti : TimeInput) (build : Bool) (route : List Nat) (fuel : Nat) (i : Nat)
    (o : TimeOutput) : Except RunError TimeOutput := do
  let location ← exceptOfOption .indexOOB (route.get? i)
  let job_duration ← exceptOfOption .indexOOB (ti.job_durations.get? location)
  let tws ← exceptOfOption .indexOOB (ti.time_windows.get? location)
  let o ← jobLoop tws ti.operation_times build location fuel job_duration o.end_time true o
  pure (o.add_lateness (tws.lateness o.end_time))

/-- The `while remaining_travel_duration > 0` loop of
`WorkingTimePenalizer::execute_travel`; the `None` arm is the source's
`unreachable!()`. -/
def travelLoop (mot : Option OperationTimes) (build : Bool) :
    Nat → Int → Int → TimeOutput → Except RunError TimeOutput
  | 0, _, _, _ => .error .fuel
  | fuel + 1, remaining, current_time, o =>
    if remaining > 0 then
      match mot with
      | none => .error .unwrapNone
      | some ot =>
        match ot.find_next_fitting_time current_time remaining false with
        | some next_time_op =>
          let remaining := remaining - next_time_op.duration
          let o := add_travel o build next_time_op
          travelLoop mot build fuel remaining o.end_time o
        | none => .error .unreachable
    else .ok o

/-- src: `WorkingTimePenalizer::execute_travel`. -/
def executeTravel (ti : TimeInput) (build : Bool) (route : List Nat) (fuel : Nat) (i : Nat)
    (o : TimeOutput) : Except RunError TimeOutput := do
  let location ← exceptOfOption .indexOOB (route.get? i)
  let next_location ← exceptOfOption .indexOOB (route.get? ((i + 1) % route.length))
  let row ← exceptOfOption .indexOOB (ti.duration_matrix.get? location)
  let travel_duration ← exceptOfOption .indexOOB (row.get? next_location)
  travelLoop ti.operation_times build fuel travel_duration o.end_time o

/-- The `for (i, _) in route.sequence.iter().enumerate()` loop of
`WorkingTimePenalizer::finish_schedule`, over the list of indices. -/
def stepsLoop (ti : TimeInput) (build : Bool) (route : List Nat) (fuel : Nat) :
    List Nat → TimeOutput → Except RunError TimeOutput
  | [], o => .ok o
  | i :: rest, o => do
    let o ← executeJob ti build route fuel i o
    let o ← executeTravel ti build route fuel i o
    stepsLoop ti build route fuel rest o

/-- src: `WorkingTimePenalizer::finish_schedule`. -/
def finish_schedule (ti : TimeInput) (build : Bool) (route : List Nat) (fuel : Nat)
    (o : TimeOutput) : Except RunError TimeOutput := do
  let o ← stepsLoop ti build route fuel (List.range route.length) o
  pure o.complete

end WorkingTimePenalizer

/-- src/penalties/time.rs: `TimePenalizer::penalize`.  The start time is the
start of the first window of the first visited location,
`time_windows[route.sequence[0]][0].start`; each of the three lookups panics
(`RunError.indexOOB`) when out of bounds. -/
def TimePenalizer.penalize (ti : TimeInput) (route : List Nat) (build_schedule : Bool)
    (fuel : Nat) : Except RunError TimeOutput := do
  let loc0 ← exceptOfOption .indexOOB (route.get? 0)
  let tws0 ← exceptOfOption .indexOOB (ti.time_windows.get? loc0)
  let w0 ← exceptOfOption .indexOOB (tws0.windows.get? 0)
  WorkingTimePenalizer.finish_schedule ti build_schedule route fuel (TimeOutput.new w0.start)

/-- src/penalties/time/time_input.rs: `transform` — raw numeric inputs to
`TimeInput`.  `u64` seconds become `Int`s; an `operation_times` pair spanning
exactly 24 hours, or with equal endpoints, is dropped (`None`); `chrono`'s
`NaiveTime` wraps additions at midnight, hence the `% 86400`.  The
`OperationTimes::new` assertion `daily_start < daily_end` and the
`panic!("Invalid day")` arm (reachable only for a `working_days` list longer
than 7) are not modelled; no claim exercises them. -/
def transform (duration_matrix : Option (List (List Nat))) (job_durations : Option (List Nat))
    (time_windows : Option (List (List (Nat × Nat)))) (operation_times : Option (Nat × Nat))
    (working_days : Option (List Bool))
    (travel_duration_until_break break_duration : Option Nat) : Option TimeInput :=
  let dm := duration_matrix.map (List.map (List.map (fun x => Int.ofNat x)))
  let jd := job_durations.map (List.map (fun x => Int.ofNat x))
  let tws := time_windows.map (List.map (fun l =>
    TimeWindows.mk (l.map (fun p => TimeWindow.mk (Int.ofNat p.1) (Int.ofNat p.2)))))
  let ot : Option OperationTimes :=
    match operation_times with
    | some (start, stop) =>
      if stop - start = 24 * 3600 ∨ start = stop then none
      else
        some
          { daily_start := Int.ofNat start % 86400
            daily_end := Int.ofNat stop % 86400
            working_days := working_days.map (fun days =>
              WorkingDays.new (days.enum.filterMap (fun p => if p.2 then some p.1 else none))) }
    | none => none
  match dm, jd, tws with
  | some dm, some jd, some tws =>
    some ⟨dm, jd, tws, ot, travel_duration_until_break, break_duration⟩
  | _, _, _ => none

/-- src/output.rs: `Solution` (the fields `is_better` reads). -/
structure Solution where
  route : List Nat
  distance : Nat
  time_report : Option TimeOutput

/-- src/penalizer.rs: `Penalizer` — a distance matrix plus an optional time
penalizer (holding the `TimeInput`). -/
structure Penalizer where
  distance_penalizer : List (List Nat)
  time_penalizer : Option TimeInput

/-- src/penalizer.rs: `Penalizer::is_better`.  Without a time penalizer,
compare distances; with one, unwrap both time reports (a missing report
panics) and compare job_splits, lateness, traveling_time, duration,
waiting_time, then distance. -/
def Penalizer.is_better (p : Penalizer) (sol1 sol2 : Solution) : Except RunError Bool :=
  match p.time_penalizer with
  | none => .ok (decide (sol1.distance < sol2.distance))
  | some _ => do
    let r1 ← exceptOfOption .unwrapNone sol1.time_report
    let r2 ← exceptOfOption .unwrapNone sol2.time_report
    if r1.job_splits < r2.job_splits then pure true
    else if r1.job_splits > r2.job_splits then pure false
    else if r1.lateness < r2.lateness then pure true
    else if r1.lateness > r2.lateness then pure false
    else if r1.traveling_time < r2.traveling_time then pure true
    else if r1.traveling_time > r2.traveling_time then pure false
    else if r1.duration < r2.duration then pure true
    else if r1.duration > r2.duration then pure false
    else if r1.waiting_time < r2.waiting_time then pure true
    else if r1.waiting_time > r2.waiting_time then pure false
    else pure (decide (sol1.distance < sol2.distance))

namespace Solver

/-- src/solver.rs: `Solver::termination_criterion` — with a `time_limit` it
holds iff the elapsed wall clock `now - start` strictly exceeds the limit;
without one it always holds. -/
def termination_criterion (time_limit : Option Int) (start now : Int) : Bool :=
  match time_limit with
  | some limit => decide (now - start > limit)
  | none => true

/-- The `while improved & self.termination_criterion()` loop of
`Solver::solve`.  The wall clock is an oracle `clock : Nat → Int` giving the
result of the `k`-th `Utc::now()` call, and `run_heuristics` is abstracted by
the oracle `heur : Nat → Bool` giving the improved-flag its `h`-th call
returns (its moves do not read the clock).  Rust's `&` on `bool` evaluates
both operands, so every check consumes a clock reading.  Returns the next
clock index and the number of `run_heuristics` calls made. -/
def innerLoop (heur : Nat → Bool) (time_limit : Option Int) (start : Int) (clock : Nat → Int) :
    Nat → Nat → Nat → Bool → Nat × Nat
  | 0, k, h, _ => (k, h)
  | fuel + 1, k, h, improved =>
    if improved && termination_criterion time_limit start (clock k) then
      innerLoop heur time_limit start clock fuel (k + 1) (h + 1) (heur h)
    else (k + 1, h)

/-- The `while self.termination_criterion()` outer loop of `Solver::solve`:
check, run the inner improvement loop, update best, assign a random restart
to `current` (counted in the third component), and exit after one round when
`time_limit` is unset. -/
def outerLoop (heur : Nat → Bool) (time_limit : Option Int) (start : Int) (clock : Nat → Int)
    (ifuel : Nat) : Nat → Nat → Nat → Nat → Nat × Nat × Nat
  | 0, k, h, r => (k, h, r)
  | fuel + 1, k, h, r =>
    if termination_criterion time_limit start (clock k) then
      let kh := innerLoop heur time_limit start clock ifuel (k + 1) h true
      if time_limit.isNone then (kh.1, kh.2, r + 1)
      else outerLoop heur time_limit start clock ifuel fuel kh.1 kh.2 (r + 1)
    else (k + 1, h, r)

/-- src/solver.rs: `Solver::solve` — records `start = Utc::now()` (clock
reading 0) and runs the outer loop.  Result: (next clock index, number of
`run_heuristics` calls, number of random-restart assignments). -/
def solve (heur : Nat → Bool) (time_limit : Option Int) (clock : Nat → Int)
    (ofuel ifuel : Nat) : Nat × Nat × Nat :=
  outerLoop heur time_limit (clock 0) clock ifuel ofuel 1 0 0

end Solver

/-! Concrete scenario data. -/

/-- 2021-01-01 00:00:00 UTC as Unix seconds (day 18628 since the epoch). -/
def jan1 : Int := 18628 * 86400

/-- 2021-01-02 00:00:00 UTC. -/
def jan2 : Int := 18629 * 86400

/-- 2021-01-03 00:00:00 UTC. -/
def jan3 : Int := 18630 * 86400

/-- Hours to seconds. -/
def hrs (n : Int) : Int := n * 3600

/-- The S2 scenario input: 3 locations, travel-duration matrix in hours
`[[0,1,2],[1,0,3],[2,3,0]]`, 3-hour jobs, windows Jan1 06–12 and Jan2 06–12
at every location, operating hours 08:00–16:00 with no working-days mask
(all weekdays working). -/
def s2Input : TimeInput :=
  { duration_matrix := [[0, hrs 1, hrs 2], [hrs 1, 0, hrs 3], [hrs 2, hrs 3, 0]]
    job_durations := [hrs 3, hrs 3, hrs 3]
    time_windows :=
      [ ⟨[⟨jan1 + hrs 6, jan1 + hrs 12⟩, ⟨jan2 + hrs 6, jan2 + hrs 12⟩]⟩,
        ⟨[⟨jan1 + hrs 6, jan1 + hrs 12⟩, ⟨jan2 + hrs 6, jan2 + hrs 12⟩]⟩,
        ⟨[⟨jan1 + hrs 6, jan1 + hrs 12⟩, ⟨jan2 + hrs 6, jan2 + hrs 12⟩]⟩ ]
    operation_times := some ⟨hrs 8, hrs 16, none⟩
    travel_duration_until_break := none
    break_duration := none }

/-- The report the evaluator produces for S2 on route `[0, 1, 2]`. -/
def s2Expected : TimeOutput :=
  { start_time := jan1 + hrs 6
    end_time := jan3 + hrs 13
    duration := hrs 55
    lateness := hrs 23
    working_time := hrs 9
    waiting_time := hrs 40
    traveling_time := hrs 6
    job_splits := 0
    schedule :=
      [ Event.Wait ⟨jan1 + hrs 6, jan1 + hrs 8⟩,
        Event.Work ⟨jan1 + hrs 8, jan1 + hrs 11⟩ 0,
        Event.Travel ⟨jan1 + hrs 11, jan1 + hrs 12⟩,
        Event.Wait ⟨jan1 + hrs 12, jan2 + hrs 8⟩,
        Event.Work ⟨jan2 + hrs 8, jan2 + hrs 11⟩ 1,
        Event.Travel ⟨jan2 + hrs 11, jan2 + hrs 14⟩,
        Event.Wait ⟨jan2 + hrs 14, jan3 + hrs 8⟩,
        Event.Work ⟨jan3 + hrs 8, jan3 + hrs 11⟩ 2,
        Event.Travel ⟨jan3 + hrs 11, jan3 + hrs 13⟩ ] }

/-- C1: on the S2 input with route `[0,1,2]` and `build_schedule = true`,
`TimePenalizer::penalize` yields the report with duration 55 h, waiting 40 h,
working 9 h, traveling 6 h, lateness 23 h, 0 job splits, and an event log of
exactly 9 events starting with the 2-hour wait from Jan 1 06:00 to 08:00. -/
theorem claim_C1 :
    TimePenalizer.penalize s2Input [0, 1, 2] true 30 = .ok s2Expected ∧
    s2Expected.duration = hrs 55 ∧
    s2Expected.waiting_time = hrs 40 ∧
    s2Expected.working_time = hrs 9 ∧
    s2Expected.traveling_time = hrs 6 ∧
    s2Expected.lateness = hrs 23 ∧
    s2Expected.job_splits = 0 ∧
    s2Expected.schedule.length = 9 ∧
    s2Expected.schedule.head? = some (Event.Wait ⟨jan1 + hrs 6, jan1 + hrs 8⟩) :=
  ⟨rfl, rfl, rfl, rfl, rfl, rfl, rfl, rfl, rfl⟩

/-- The `TimeInput` that `transform` produces for a 24/7 input
(`operation_times = (0, 86400)`): the operating-hours field is `None`. -/
def s6TimeInput : TimeInput :=
  { duration_matrix := [[0, 1], [1, 0]]
    job_durations := [1, 1]
    time_windows := [⟨[⟨0, 100⟩]⟩, ⟨[⟨0, 100⟩]⟩]
    operation_times := none
    travel_duration_until_break := none
    break_duration := none }

/-- C3 (failing input): with time mode active and
`operation_times = (0, 86400)`, `transform` drops the operating hours
(`operation_times = None`), and evaluating the valid route `[0, 1]` then hits
`operation_times.as_ref().unwrap()` inside `execute_job` — a panic on `None`
— instead of completing normally as a 24/7 schedule. -/
theorem claim_C3 :
    transform (some [[0, 1], [1, 0]]) (some [1, 1]) (some [[(0, 100)], [(0, 100)]])
        (some (0, 86400)) none none none = some s6TimeInput ∧
    s6TimeInput.operation_times = none ∧
    TimePenalizer.penalize s6TimeInput [0, 1] true 30 = .error .unwrapNone :=
  ⟨rfl, rfl, rfl⟩

/-- C5 (failing input): with Wednesday (weekday 2) as the only working day,
`next_working_day` of Wednesday 2024-01-03 (day 19725) returns Monday
2024-01-08 (day 19730) — the untouched `Mon` initialisation of the
`next_day_cache` — which is not a working day, instead of the claimed same
weekday seven days later (Wednesday 2024-01-10, day 19732). -/
theorem claim_C5 :
    (WorkingDays.new [2]).next_working_day 19725 = 19730 ∧
    weekdayOf 19730 ≠ 2 ∧
    (WorkingDays.new [2]).next_working_day 19725 ≠ 19725 + 7 := by
  refine ⟨rfl, ?_, ?_⟩ <;> decide

/-- C7 (failing input): `Solver::solve` loops `while termination_criterion()`,
and with a `time_limit` the criterion holds only once the elapsed clock
exceeds the limit.  First component: with `time_limit = 10` and a clock that
has advanced 0 seconds at the first check, `solve` performs 0 heuristic
passes and 0 restarts and returns at once (result `(2, 0, 0)`: two clock
reads, no work).  Second component: with `time_limit` unset it performs
exactly one improvement pass (here a single non-improving `run_heuristics`
call) plus one restart, as the claim describes for that case. -/
theorem claim_C7 :
    Solver.solve (fun _ => false) (some 10) (fun _ => 1000) 5 5 = (2, 0, 0) ∧
    Solver.solve (fun _ => false) none (fun k => 1000 + k) 5 5 = (4, 1, 1) :=
  ⟨rfl, rfl⟩

/-- C4 (counterexample): `OperationTimes::contains` checks only the time of
day.  With operating hours 08:00–16:00 and only Monday working, the instant
Tuesday 2024-01-02 10:00 UTC (day 19724) is reported as contained although
its weekday is not a working day, refuting the claimed iff. -/
theorem claim_C4_counterexample :
    ¬ ((OperationTimes.mk (hrs 8) (hrs 16) (some (WorkingDays.new [0]))).contains
          (19724 * 86400 + hrs 10) = true ↔
        ((hrs 8 ≤ todOf (19724 * 86400 + hrs 10) ∧ todOf (19724 * 86400 + hrs 10) < hrs 16) ∧
          [0].contains (weekdayOf (dayOf (19724 * 86400 + hrs 10))).toNat = true)) := by
  decide

/-- C4 (amended): `OperationTimes::contains(t)` returns true iff the
time-of-day of `t` lies in `[daily_start, daily_end)` — the working-days
mask is not consulted at all. -/
theorem claim_C4 (ot : OperationTimes) (t : Int) :
    ot.contains t = true ↔ (ot.daily_start ≤ todOf t ∧ todOf t < ot.daily_end) := by
  simp [OperationTimes.contains]

/-! C2: the lexicographic comparator. -/

/-- Strict lexicographic order on the six-key tuple
(job_splits, lateness, traveling_time, duration, waiting_time, distance),
written from the spec's wording. -/
def lexKeyLt (r1 r2 : TimeOutput) (d1 d2 : Nat) : Prop :=
  r1.job_splits < r2.job_splits ∨ (r1.job_splits = r2.job_splits ∧
  (r1.lateness < r2.lateness ∨ (r1.lateness = r2.lateness ∧
  (r1.traveling_time < r2.traveling_time ∨ (r1.traveling_time = r2.traveling_time ∧
  (r1.duration < r2.duration ∨ (r1.duration = r2.duration ∧
  (r1.waiting_time < r2.waiting_time ∨ (r1.waiting_time = r2.waiting_time ∧
  d1 < d2)))))))))

/-- C2: without a `TimeInput`, `is_better` compares distances; with one (and
both solutions carrying a time report) it holds iff the six-key tuple of
`sol1` is strictly lexicographically smaller than that of `sol2`, keys in
the order job_splits, lateness, traveling_time, duration, waiting_time,
distance. -/
theorem claim_C2 (p : Penalizer) (s1 s2 : Solution) :
    (p.time_penalizer = none →
      (p.is_better s1 s2 = .ok true ↔ s1.distance < s2.distance)) ∧
    (∀ ti r1 r2, p.time_penalizer = some ti → s1.time_report = some r1 →
      s2.time_report = some r2 →
      (p.is_better s1 s2 = .ok true ↔ lexKeyLt r1 r2 s1.distance s2.distance)) := by
  constructor
  · intro h
    simp [Penalizer.is_better, h]
  · intro ti r1 r2 hp h1 h2
    simp only [Penalizer.is_better, hp, h1, h2, exceptOfOption, bind, Except.bind]
    clear hp h1 h2
    simp only [pure, Except.pure]
    repeat' split
    all_goals simp only [Except.ok.injEq, decide_eq_true_eq, lexKeyLt, Bool.true_eq_false,
      Bool.false_eq_true, eq_self_iff_true, true_iff, false_iff]
    all_goals omega

/-- Witness for C2 at concrete solutions. -/
theorem claim_C2_witness :
    Penalizer.is_better ⟨[[0]], none⟩ ⟨[0], 3, none⟩ ⟨[0], 5, none⟩ = .ok true ↔ (3 : Nat) < 5 :=
  (claim_C2 ⟨[[0]], none⟩ ⟨[0], 3, none⟩ ⟨[0], 5, none⟩).1 rfl

/-! C10: partiality of the evaluator's start-time computation. -/

/-- A time input whose single location has an empty window list. -/
def emptyWinTI : TimeInput :=
  { duration_matrix := [[0]]
    job_durations := [1]
    time_windows := [⟨[]⟩]
    operation_times := some ⟨hrs 8, hrs 16, none⟩
    travel_duration_until_break := none
    break_duration := none }

/-- C10: `TimePenalizer::penalize` computes
`time_windows[route.sequence[0]][0].start` first: the empty route and any
route whose first location has no time window panic with an out-of-bounds
index before any evaluation, and a normal completion implies the first
location has at least one window. -/
theorem claim_C10 (ti : TimeInput) (route : List Nat) (b : Bool) (fuel : Nat) :
    (route = [] → TimePenalizer.penalize ti route b fuel = .error .indexOOB) ∧
    (∀ loc tws, route[0]? = some loc → ti.time_windows[loc]? = some tws →
      tws.windows = [] → TimePenalizer.penalize ti route b fuel = .error .indexOOB) ∧
    (∀ out, TimePenalizer.penalize ti route b fuel = .ok out →
      ∃ loc tws w, route[0]? = some loc ∧ ti.time_windows[loc]? = some tws ∧
        tws.windows[0]? = some w) := by
  refine ⟨?_, ?_, ?_⟩
  · intro h
    subst h
    simp [TimePenalizer.penalize, exceptOfOption, bind, Except.bind]
  · intro loc tws h0 h1 h2
    simp [TimePenalizer.penalize, h0, h1, h2, exceptOfOption, bind, Except.bind]
  · intro out h
    simp only [TimePenalizer.penalize, bind, Except.bind, List.get?_eq_getElem?] at h
    cases hl : route[0]? with
    | none => simp [hl, exceptOfOption] at h
    | some loc =>
      cases ht : ti.time_windows[loc]? with
      | none => simp [hl, ht, exceptOfOption] at h
      | some tws =>
        cases hw : tws.windows[0]? with
        | none => simp [hl, ht, hw, exceptOfOption] at h
        | some w => exact ⟨loc, tws, w, rfl, ht, hw⟩

/-- Witness for C10: the empty route and a route to a windowless location
both panic. -/
theorem claim_C10_witness :
    TimePenalizer.penalize emptyWinTI [] true 5 = .error .indexOOB ∧
    TimePenalizer.penalize emptyWinTI [0] true 5 = .error .indexOOB :=
  ⟨(claim_C10 emptyWinTI [] true 5).1 rfl,
   (claim_C10 emptyWinTI [0] true 5).2.1 0 ⟨[]⟩ rfl rfl rfl⟩

/-! C8: the accumulator invariants. -/

/-- The two spec invariants of a schedule accumulator:
`duration = waiting + working + traveling` and
`end_time = start_time + duration`. -/
def Inv (o : TimeOutput) : Prop :=
  o.duration = o.waiting_time + o.working_time + o.traveling_time ∧
  o.end_time = o.start_time + o.duration

theorem inv_new (t : Int) : Inv (TimeOutput.new t) := by
  simp [Inv, TimeOutput.new]

theorem inv_add_waiting (o : TimeOutput) (tw : TimeWindow) (b : Bool) (h : Inv o) :
    Inv (o.add_waiting tw b) := by
  obtain ⟨h1, h2⟩ := h
  constructor <;> simp [TimeOutput.add_waiting] <;> omega

theorem inv_add_traveling (o : TimeOutput) (tw : TimeWindow) (b : Bool) (h : Inv o) :
    Inv (o.add_traveling tw b) := by
  obtain ⟨h1, h2⟩ := h
  constructor <;> simp [TimeOutput.add_traveling] <;> omega

theorem inv_add_working (o : TimeOutput) (loc : Nat) (tw : TimeWindow) (b : Bool) (h : Inv o) :
    Inv (o.add_working loc tw b) := by
  obtain ⟨h1, h2⟩ := h
  constructor <;> simp [TimeOutput.add_working] <;> omega

theorem inv_add_split (o : TimeOutput) (h : Inv o) : Inv o.add_split := by
  obtain ⟨h1, h2⟩ := h
  constructor <;> simp [TimeOutput.add_split] <;> omega

theorem inv_add_lateness (o : TimeOutput) (l : Int) (h : Inv o) : Inv (o.add_lateness l) := by
  obtain ⟨h1, h2⟩ := h
  constructor <;> simp [TimeOutput.add_lateness] <;> omega

theorem inv_complete (o : TimeOutput) (h : Inv o) : Inv o.complete := h

theorem inv_wtp_add_waiting (o : TimeOutput) (b : Bool) (d : Int) (h : Inv o) :
    Inv (WorkingTimePenalizer.add_waiting o b d) := by
  unfold WorkingTimePenalizer.add_waiting
  split
  · exact inv_add_waiting o _ b h
  · exact h

theorem inv_wtp_add_job (o : TimeOutput) (b : Bool) (loc : Nat) (tw : TimeWindow) (h : Inv o) :
    Inv (WorkingTimePenalizer.add_job o b loc tw) :=
  inv_add_working _ loc tw b (inv_wtp_add_waiting o b _ h)

theorem inv_wtp_add_travel (o : TimeOutput) (b : Bool) (tw : TimeWindow) (h : Inv o) :
    Inv (WorkingTimePenalizer.add_travel o b tw) :=
  inv_add_traveling _ tw b (inv_wtp_add_waiting o b _ h)

theorem inv_jobLoop (tws : TimeWindows) (mot : Option OperationTimes) (b : Bool) (loc : Nat) :
    ∀ (fuel : Nat) (jd ct : Int) (mf : Bool) (o out : TimeOutput), Inv o →
      WorkingTimePenalizer.jobLoop tws mot b loc fuel jd ct mf o = .ok out → Inv out := by
  intro fuel
  induction fuel with
  | zero =>
    intro jd ct mf o out h hrun
    simp [WorkingTimePenalizer.jobLoop] at hrun
  | succ n ih =>
    intro jd ct mf o out h hrun
    cases mot with
    | none => simp [WorkingTimePenalizer.jobLoop] at hrun
    | some ot =>
      simp only [WorkingTimePenalizer.jobLoop] at hrun
      cases htw : tws.find_next_fitting_time ct jd mf with
      | none =>
        cases hop : ot.find_next_fitting_time ct jd mf with
        | none =>
          simp only [htw, hop] at hrun
          exact ih _ _ _ _ _ (inv_add_split o h) hrun
        | some nop =>
          simp only [htw, hop] at hrun
          by_cases hz : jd - nop.duration = 0
          · rw [if_pos hz] at hrun
            cases hrun
            exact inv_wtp_add_job o b loc nop h
          · rw [if_neg hz] at hrun
            exact ih _ _ _ _ _ (inv_wtp_add_job o b loc nop h) hrun
      | some ntw =>
        cases hop : ot.find_next_fitting_time ct jd mf with
        | none =>
          simp only [htw, hop] at hrun
          exact ih _ _ _ _ _ (inv_add_split o h) hrun
        | some nop =>
          simp only [htw, hop] at hrun
          by_cases he : ntw = nop
          · rw [if_pos he] at hrun
            by_cases hz : jd - ntw.duration = 0
            · rw [if_pos hz] at hrun
              cases hrun
              exact inv_wtp_add_job o b loc ntw h
            · rw [if_neg hz] at hrun
              exact ih _ _ _ _ _ (inv_wtp_add_job o b loc ntw h) hrun
          · rw [if_neg he] at hrun
            exact ih _ _ _ _ _ h hrun

theorem inv_travelLoop (mot : Option OperationTimes) (b : Bool) :
    ∀ (fuel : Nat) (rem ct : Int) (o out : TimeOutput), Inv o →
      WorkingTimePenalizer.travelLoop mot b fuel rem ct o = .ok out → Inv out := by
  intro fuel
  induction fuel with
  | zero =>
    intro rem ct o out h hrun
    simp [WorkingTimePenalizer.travelLoop] at hrun
  | succ n ih =>
    intro rem ct o out h hrun
    simp only [WorkingTimePenalizer.travelLoop] at hrun
    by_cases hr : rem > 0
    · rw [if_pos hr] at hrun
      cases mot with
      | none => simp at hrun
      | some ot =>
        cases hf : ot.find_next_fitting_time ct rem false with
        | none => simp only [hf] at hrun; simp at hrun
        | some nop =>
          simp only [hf] at hrun
          exact ih _ _ _ _ (inv_wtp_add_travel o b nop h) hrun
    · rw [if_neg hr] at hrun
      cases hrun
      exact h

theorem inv_executeJob (ti : TimeInput) (b : Bool) (route : List Nat) (fuel i : Nat)
    (o out : TimeOutput) (h : Inv o)
    (hrun : WorkingTimePenalizer.executeJob ti b route fuel i o = .ok out) : Inv out := by
  simp only [WorkingTimePenalizer.executeJob, bind, Except.bind] at hrun
  split at hrun
  · simp at hrun
  · split at hrun
    · simp at hrun
    · split at hrun
      · simp at hrun
      · split at hrun
        · simp at hrun
        · rename_i tws1 heqw o1 heqrun
          cases hrun
          exact inv_add_lateness o1 _ (inv_jobLoop _ _ b _ fuel _ _ _ o o1 h heqrun)

theorem inv_executeTravel (ti : TimeInput) (b : Bool) (route : List Nat) (fuel i : Nat)
    (o out : TimeOutput) (h : Inv o)
    (hrun : WorkingTimePenalizer.executeTravel ti b route fuel i o = .ok out) : Inv out := by
  simp only [WorkingTimePenalizer.executeTravel, bind, Except.bind] at hrun
  split at hrun
  · simp at hrun
  · split at hrun
    · simp at hrun
    · split at hrun
      · simp at hrun
      · split at hrun
        · simp at hrun
        · exact inv_travelLoop _ b fuel _ _ o out h hrun

theorem inv_stepsLoop (ti : TimeInput) (b : Bool) (route : List Nat) (fuel : Nat) :
    ∀ (l : List Nat) (o out : TimeOutput), Inv o →
      WorkingTimePenalizer.stepsLoop ti b route fuel l o = .ok out → Inv out := by
  intro l
  induction l with
  | nil =>
    intro o out h hrun
    cases hrun
    exact h
  | cons i rest ih =>
    intro o out h hrun
    simp only [WorkingTimePenalizer.stepsLoop, bind, Except.bind] at hrun
    cases hj : WorkingTimePenalizer.executeJob ti b route fuel i o with
    | error e => simp only [hj] at hrun; cases hrun
    | ok o1 =>
      simp only [hj] at hrun
      cases ht : WorkingTimePenalizer.executeTravel ti b route fuel i o1 with
      | error e => simp only [ht] at hrun; cases hrun
      | ok o2 =>
        simp only [ht] at hrun
        exact ih o2 out (inv_executeTravel ti b route fuel i o1 o2
          (inv_executeJob ti b route fuel i o o1 h hj) ht) hrun

theorem inv_penalize (ti : TimeInput) (route : List Nat) (b : Bool) (fuel : Nat)
    (out : TimeOutput) (hrun : TimePenalizer.penalize ti route b fuel = .ok out) : Inv out := by
  simp only [TimePenalizer.penalize, WorkingTimePenalizer.finish_schedule, bind,
    Except.bind] at hrun
  split at hrun
  · simp at hrun
  · split at hrun
    · simp at hrun
    · split at hrun
      · simp at hrun
      · rename_i w0 heqw
        cases hs : WorkingTimePenalizer.stepsLoop ti b route fuel (List.range route.length)
            (TimeOutput.new w0.start) with
        | error e => simp only [hs] at hrun; cases hrun
        | ok o1 =>
          simp only [hs] at hrun
          cases hrun
          exact inv_complete o1
            (inv_stepsLoop ti b route fuel (List.range route.length) _ o1
              (inv_new w0.start) hs)

/-- C8: both accumulator equalities hold of a fresh `TimeOutput`, are
preserved by every accumulator operation (`add_waiting`, `add_traveling`,
`add_working`, `add_split`, `add_lateness`, `complete`), and hence hold of
every complete time report the evaluator returns. -/
theorem claim_C8 :
    (∀ t, Inv (TimeOutput.new t)) ∧
    (∀ o tw b, Inv o → Inv (TimeOutput.add_waiting o tw b)) ∧
    (∀ o tw b, Inv o → Inv (TimeOutput.add_traveling o tw b)) ∧
    (∀ o loc tw b, Inv o → Inv (TimeOutput.add_working o loc tw b)) ∧
    (∀ o, Inv o → Inv (TimeOutput.add_split o)) ∧
    (∀ o l, Inv o → Inv (TimeOutput.add_lateness o l)) ∧
    (∀ o, Inv o → Inv (TimeOutput.complete o)) ∧
    (∀ ti route b fuel out, TimePenalizer.penalize ti route b fuel = .ok out → Inv out) :=
  ⟨inv_new,
   fun o tw b h => inv_add_waiting o tw b h,
   fun o tw b h => inv_add_traveling o tw b h,
   fun o loc tw b h => inv_add_working o loc tw b h,
   fun o h => inv_add_split o h,
   fun o l h => inv_add_lateness o l h,
   fun o h => inv_complete o h,
   fun ti route b fuel out h => inv_penalize ti route b fuel out h⟩

/-! C9: totality of `OperationTimes::find_next_fitting_time` with
`must_fit = false`, and unreachability of the `unreachable!()` arm. -/

theorem opFind_false_eq (ot : OperationTimes) (now need : Int) :
    ot.find_next_fitting_time now need false =
      some ⟨now + ot.waiting_time now,
            min (now + ot.waiting_time now + need)
                (dayOf (now + ot.waiting_time now) * 86400 + ot.daily_end)⟩ := rfl

theorem opFind_false_start_le_stop (ot : OperationTimes) (now need : Int) (hneed : 0 ≤ need)
    (h0 : 0 ≤ ot.daily_start) (h1 : ot.daily_start < ot.daily_end) (h2 : ot.daily_end < 86400) :
    now + ot.waiting_time now ≤
      min (now + ot.waiting_time now + need)
        (dayOf (now + ot.waiting_time now) * 86400 + ot.daily_end) := by
  rw [le_min_iff]
  unfold OperationTimes.waiting_time OperationTimes.start_next_day
  by_cases hc : ot.contains now = true
  · rw [if_pos hc]
    simp only [OperationTimes.contains, Bool.and_eq_true, decide_eq_true_eq, todOf] at hc
    unfold dayOf
    omega
  · rw [if_neg hc]
    simp only [OperationTimes.contains, Bool.and_eq_true, decide_eq_true_eq, todOf] at hc
    by_cases hb : todOf now < ot.daily_start
    · rw [if_pos hb]
      unfold todOf at hb ⊢
      unfold dayOf
      omega
    · rw [if_neg hb]
      unfold todOf at hb
      unfold dayOf
      generalize ot.next_day now = nd
      omega

theorem exceptOfOption_error {α : Type} (e e2 : RunError) (x : Option α)
    (h : exceptOfOption e x = .error e2) : e2 = e := by
  cases x with
  | none => simp only [exceptOfOption, Except.error.injEq] at h; exact h.symm
  | some a => simp [exceptOfOption] at h

theorem ne_unreachable_travelLoop (mot : Option OperationTimes) (b : Bool) :
    ∀ (fuel : Nat) (rem ct : Int) (o : TimeOutput),
      WorkingTimePenalizer.travelLoop mot b fuel rem ct o ≠ .error .unreachable := by
  intro fuel
  induction fuel with
  | zero => intro rem ct o hrun; simp [WorkingTimePenalizer.travelLoop] at hrun
  | succ n ih =>
    intro rem ct o hrun
    simp only [WorkingTimePenalizer.travelLoop] at hrun
    by_cases hr : rem > 0
    · rw [if_pos hr] at hrun
      cases mot with
      | none => simp at hrun
      | some ot =>
        cases hf : ot.find_next_fitting_time ct rem false with
        | none => rw [opFind_false_eq] at hf; cases hf
        | some nop =>
          simp only [hf] at hrun
          exact ih _ _ _ hrun
    · rw [if_neg hr] at hrun
      cases hrun

theorem ne_unreachable_jobLoop (tws : TimeWindows) (mot : Option OperationTimes) (b : Bool)
    (loc : Nat) :
    ∀ (fuel : Nat) (jd ct : Int) (mf : Bool) (o : TimeOutput),
      WorkingTimePenalizer.jobLoop tws mot b loc fuel jd ct mf o ≠ .error .unreachable := by
  intro fuel
  induction fuel with
  | zero => intro jd ct mf o hrun; simp [WorkingTimePenalizer.jobLoop] at hrun
  | succ n ih =>
    intro jd ct mf o hrun
    cases mot with
    | none => simp [WorkingTimePenalizer.jobLoop] at hrun
    | some ot =>
      simp only [WorkingTimePenalizer.jobLoop] at hrun
      cases htw : tws.find_next_fitting_time ct jd mf with
      | none =>
        cases hop : ot.find_next_fitting_time ct jd mf with
        | none =>
          simp only [htw, hop] at hrun
          exact ih _ _ _ _ hrun
        | some nop =>
          simp only [htw, hop] at hrun
          by_cases hz : jd - nop.duration = 0
          · rw [if_pos hz] at hrun; cases hrun
          · rw [if_neg hz] at hrun; exact ih _ _ _ _ hrun
      | some ntw =>
        cases hop : ot.find_next_fitting_time ct jd mf with
        | none =>
          simp only [htw, hop] at hrun
          exact ih _ _ _ _ hrun
        | some nop =>
          simp only [htw, hop] at hrun
          by_cases he : ntw = nop
          · rw [if_pos he] at hrun
            by_cases hz : jd - ntw.duration = 0
            · rw [if_pos hz] at hrun; cases hrun
            · rw [if_neg hz] at hrun; exact ih _ _ _ _ hrun
          · rw [if_neg he] at hrun; exact ih _ _ _ _ hrun

theorem ne_unreachable_executeJob (ti : TimeInput) (b : Bool) (route : List Nat)
    (fuel i : Nat) (o : TimeOutput) :
    WorkingTimePenalizer.executeJob ti b route fuel i o ≠ .error .unreachable := by
  intro hrun
  simp only [WorkingTimePenalizer.executeJob, bind, Except.bind] at hrun
  split at hrun
  · rename_i heq
    cases hrun
    exact absurd (exceptOfOption_error _ _ _ heq) (by decide)
  · split at hrun
    · rename_i heq
      cases hrun
      exact absurd (exceptOfOption_error _ _ _ heq) (by decide)
    · split at hrun
      · rename_i heq
        cases hrun
        exact absurd (exceptOfOption_error _ _ _ heq) (by decide)
      · split at hrun
        · rename_i heq
          cases hrun
          exact ne_unreachable_jobLoop _ _ b _ fuel _ _ _ o heq
        · cases hrun

theorem ne_unreachable_executeTravel (ti : TimeInput) (b : Bool) (route : List Nat)
    (fuel i : Nat) (o : TimeOutput) :
    WorkingTimePenalizer.executeTravel ti b route fuel i o ≠ .error .unreachable := by
  intro hrun
  simp only [WorkingTimePenalizer.executeTravel, bind, Except.bind] at hrun
  split at hrun
  · rename_i heq
    cases hrun
    exact absurd (exceptOfOption_error _ _ _ heq) (by decide)
  · split at hrun
    · rename_i heq
      cases hrun
      exact absurd (exceptOfOption_error _ _ _ heq) (by decide)
    · split at hrun
      · rename_i heq
        cases hrun
        exact absurd (exceptOfOption_error _ _ _ heq) (by decide)
      · split at hrun
        · rename_i heq
          cases hrun
          exact absurd (exceptOfOption_error _ _ _ heq) (by decide)
        · exact ne_unreachable_travelLoop _ b fuel _ _ o hrun

theorem ne_unreachable_stepsLoop (ti : TimeInput) (b : Bool) (route : List Nat) (fuel : Nat) :
    ∀ (l : List Nat) (o : TimeOutput),
      WorkingTimePenalizer.stepsLoop ti b route fuel l o ≠ .error .unreachable := by
  intro l
  induction l with
  | nil => intro o hrun; cases hrun
  | cons i rest ih =>
    intro o hrun
    simp only [WorkingTimePenalizer.stepsLoop, bind, Except.bind] at hrun
    cases hj : WorkingTimePenalizer.executeJob ti b route fuel i o with
    | error e =>
      simp only [hj] at hrun
      cases hrun
      exact ne_unreachable_executeJob ti b route fuel i o hj
    | ok o1 =>
      simp only [hj] at hrun
      cases ht : WorkingTimePenalizer.executeTravel ti b route fuel i o1 with
      | error e =>
        simp only [ht] at hrun
        cases hrun
        exact ne_unreachable_executeTravel ti b route fuel i o1 ht
      | ok o2 =>
        simp only [ht] at hrun
        exact ih o2 hrun

theorem ne_unreachable_penalize (ti : TimeInput) (route : List Nat) (b : Bool) (fuel : Nat) :
    TimePenalizer.penalize ti route b fuel ≠ .error .unreachable := by
  intro hrun
  simp only [TimePenalizer.penalize, WorkingTimePenalizer.finish_schedule, bind,
    Except.bind] at hrun
  split at hrun
  · rename_i heq
    cases hrun
    exact absurd (exceptOfOption_error _ _ _ heq) (by decide)
  · split at hrun
    · rename_i heq
      cases hrun
      exact absurd (exceptOfOption_error _ _ _ heq) (by decide)
    · split at hrun
      · rename_i heq
        cases hrun
        exact absurd (exceptOfOption_error _ _ _ heq) (by decide)
      · rename_i w0 heqw
        cases hs : WorkingTimePenalizer.stepsLoop ti b route fuel (List.range route.length)
            (TimeOutput.new w0.start) with
        | error e =>
          simp only [hs] at hrun
          cases hrun
          exact ne_unreachable_stepsLoop ti b route fuel (List.range route.length) _ hs
        | ok o1 =>
          simp only [hs] at hrun
          simp [pure, Except.pure] at hrun

/-- C9: for every operating-hours value (well-formed per the `NaiveTime`
representation and the constructor assertion, i.e.
`0 ≤ daily_start < daily_end < 86400`) and every non-negative need,
`find_next_fitting_time` with `must_fit = false` returns `Some` well-formed
interval; consequently the `unreachable!()` arm of `execute_travel` — and a
fortiori of the whole evaluator — is never executed, for any arguments. -/
theorem claim_C9 :
    (∀ (ot : OperationTimes) (now need : Int), 0 ≤ need → 0 ≤ ot.daily_start →
      ot.daily_start < ot.daily_end → ot.daily_end < 86400 →
      ∃ tw, ot.find_next_fitting_time now need false = some tw ∧ tw.start ≤ tw.stop) ∧
    (∀ mot b fuel rem ct o,
      WorkingTimePenalizer.travelLoop mot b fuel rem ct o ≠ .error .unreachable) ∧
    (∀ ti b route fuel i o,
      WorkingTimePenalizer.executeTravel ti b route fuel i o ≠ .error .unreachable) ∧
    (∀ ti route b fuel, TimePenalizer.penalize ti route b fuel ≠ .error .unreachable) :=
  ⟨fun ot now need hneed h0 h1 h2 =>
      ⟨_, opFind_false_eq ot now need, opFind_false_start_le_stop ot now need hneed h0 h1 h2⟩,
   fun mot b fuel rem ct o => ne_unreachable_travelLoop mot b fuel rem ct o,
   fun ti b route fuel i o => ne_unreachable_executeTravel ti b route fuel i o,
   fun ti route b fuel => ne_unreachable_penalize ti route b fuel⟩

/-- Witness for C9 at concrete arguments. -/
theorem claim_C9_witness :
    (∃ tw, (OperationTimes.mk (hrs 8) (hrs 16) none).find_next_fitting_time 0 5 false =
        some tw ∧ tw.start ≤ tw.stop) ∧
    WorkingTimePenalizer.travelLoop (some ⟨hrs 8, hrs 16, none⟩) true 3 2 0
        (TimeOutput.new 0) ≠ .error .unreachable :=
  ⟨claim_C9.1 ⟨hrs 8, hrs 16, none⟩ 0 5 (by decide) (by decide) (by decide) (by decide),
   claim_C9.2.1 (some ⟨hrs 8, hrs 16, none⟩) true 3 2 0 (TimeOutput.new 0)⟩

/-- Witness for C8: the invariants at a concrete fresh accumulator, after a
concrete `add_waiting`, and for the S2 report the evaluator returns. -/
theorem claim_C8_witness :
    Inv (TimeOutput.new 5) ∧
    Inv (TimeOutput.add_waiting (TimeOutput.new 5) ⟨5, 9⟩ true) ∧
    Inv s2Expected :=
  ⟨claim_C8.1 5,
   claim_C8.2.1 (TimeOutput.new 5) ⟨5, 9⟩ true (claim_C8.1 5),
   claim_C8.2.2.2.2.2.2.2 s2Input [0, 1, 2] true 30 s2Expected rfl⟩

/-! C6: characterisation of `TimeWindows::find_next_fitting_time` with
`must_fit = false` on chronological window lists. -/

/-- Nondecreasing key list (the window ends probed by the binary search). -/
def MonoEnds (ends : List Int) : Prop :=
  ∀ i j : Nat, i ≤ j → j < ends.length → ends.getD i 0 ≤ ends.getD j 0

/-- Correctness of the branchless binary-search loop on a nondecreasing key
list: starting from a window `[base, base + size)` whose left end is 0 or
sits at a key `≤ target` and whose right side is past every key `≤ target`,
the loop lands on the rightmost in-range index whose key is `≤ target`
(or on 0 when every key exceeds the target). -/
theorem bsLoop_spec (ends : List Int) (target : Int) :
    ∀ (fuel base size : Nat), size ≤ fuel → 1 ≤ size → base + size ≤ ends.length →
      MonoEnds ends →
      (base = 0 ∨ ends.getD base 0 ≤ target) →
      (∀ j, base + size ≤ j → j < ends.length → target < ends.getD j 0) →
      base ≤ bsLoop ends target fuel base size ∧
      bsLoop ends target fuel base size < base + size ∧
      (bsLoop ends target fuel base size = 0 ∨
        ends.getD (bsLoop ends target fuel base size) 0 ≤ target) ∧
      (∀ j, bsLoop ends target fuel base size + 1 ≤ j → j < ends.length →
        target < ends.getD j 0) := by
  intro fuel
  induction fuel with
  | zero =>
    intro base size hfuel hsz
    omega
  | succ n ih =>
    intro base size hfuel hsz hlen hmono hA hB
    by_cases h1 : size ≤ 1
    · have hone : size = 1 := by omega
      simp only [bsLoop, if_pos h1]
      refine ⟨Nat.le_refl base, by omega, hA, ?_⟩
      intro j hj hjlen
      exact hB j (by omega) hjlen
    · simp only [bsLoop, if_neg h1]
      by_cases hlt : target < ends.getD (base + size / 2) 0
      · rw [if_pos hlt]
        have hrec := ih base (size - size / 2) (by omega) (by omega) (by omega) hmono hA ?_
        · exact ⟨hrec.1, by omega, hrec.2.2⟩
        · intro j hj hjlen
          by_cases hjs : base + size ≤ j
          · exact hB j hjs hjlen
          · exact lt_of_lt_of_le hlt (hmono (base + size / 2) j (by omega) hjlen)
      · rw [if_neg hlt]
        have hrec := ih (base + size / 2) (size - size / 2) (by omega) (by omega) (by omega)
          hmono (Or.inr (by omega)) ?_
        · exact ⟨by omega, by omega, hrec.2.2⟩
        · intro j hj hjlen
          exact hB j (by omega) hjlen

/-- Case analysis of `binarySearchBy` on a nonempty nondecreasing key list:
it yields `Ok b` or `Err (b+1)` with `b` a key `≤ target` and every key after
`b` greater than the target, or `Err 0` with every key greater than the
target. -/
theorem binarySearchBy_cases (ends : List Int) (target : Int) (hmono : MonoEnds ends)
    (hne : ¬ ends.length = 0) :
    (∃ b, binarySearchBy ends target = .ok b ∧ b < ends.length ∧ ends.getD b 0 ≤ target ∧
      ∀ j, b + 1 ≤ j → j < ends.length → target < ends.getD j 0) ∨
    (∃ b, binarySearchBy ends target = .error (b + 1) ∧ b < ends.length ∧
      ends.getD b 0 ≤ target ∧
      ∀ j, b + 1 ≤ j → j < ends.length → target < ends.getD j 0) ∨
    (binarySearchBy ends target = .error 0 ∧ ∀ j, j < ends.length → target < ends.getD j 0) := by
  have hunfold : binarySearchBy ends target =
      (if ends.getD (bsLoop ends target ends.length 0 ends.length) 0 = target then
        .ok (bsLoop ends target ends.length 0 ends.length)
      else if ends.getD (bsLoop ends target ends.length 0 ends.length) 0 < target then
        .error (bsLoop ends target ends.length 0 ends.length + 1)
      else .error (bsLoop ends target ends.length 0 ends.length)) := by
    unfold binarySearchBy
    rw [if_neg hne]
  obtain ⟨hb0, hblt, hA, hB⟩ := bsLoop_spec ends target ends.length 0 ends.length
    (Nat.le_refl _) (by omega) (by omega) hmono (Or.inl rfl)
    (fun j hj hjlen => absurd hjlen (by omega))
  by_cases hP : ends.getD (bsLoop ends target ends.length 0 ends.length) 0 = target
  · left
    exact ⟨_, by rw [hunfold, if_pos hP], by omega, le_of_eq hP, hB⟩
  · by_cases hQ : ends.getD (bsLoop ends target ends.length 0 ends.length) 0 < target
    · right; left
      exact ⟨_, by rw [hunfold, if_neg hP, if_pos hQ], by omega, le_of_lt hQ, hB⟩
    · right; right
      have hb00 : bsLoop ends target ends.length 0 ends.length = 0 := by
        rcases hA with h | h
        · exact h
        · omega
      constructor
      · rw [hunfold, if_neg hP, if_neg hQ, hb00]
      · intro j hjlen
        rcases Nat.eq_zero_or_pos j with h | h
        · subst h
          rw [← hb00]
          omega
        · exact hB j (by omega) hjlen

/-- The `index` of `TimeWindows::find_next_fitting_time` is, on a
nonempty list with nondecreasing ends, the first index whose end exceeds
`current_time` (or the length when there is none). -/
theorem searchIndex_spec (tws : TimeWindows) (now : Int)
    (hmono : MonoEnds (tws.windows.map (fun w => w.stop)))
    (hne : ¬ tws.windows.length = 0) :
    (∀ j, j < tws.searchIndex now →
      (tws.windows.map (fun w => w.stop)).getD j 0 ≤ now) ∧
    (tws.searchIndex now < tws.windows.length →
      now < (tws.windows.map (fun w => w.stop)).getD (tws.searchIndex now) 0) ∧
    tws.searchIndex now ≤ tws.windows.length := by
  have hlen : (tws.windows.map (fun w => w.stop)).length = tws.windows.length := by
    simp
  rcases binarySearchBy_cases (tws.windows.map (fun w => w.stop)) now hmono (by omega) with
    ⟨b, heq, hblt, hble, hB⟩ | ⟨b, heq, hblt, hble, hB⟩ | ⟨heq, hall⟩
  · have hidx : tws.searchIndex now = b + 1 := by
      simp only [TimeWindows.searchIndex, heq]
    rw [hidx]
    refine ⟨?_, ?_, by omega⟩
    · intro j hj
      exact le_trans (hmono j b (by omega) (by omega)) hble
    · intro hlt
      exact hB (b + 1) (Nat.le_refl _) (by omega)
  · have hidx : tws.searchIndex now = b + 1 := by
      simp only [TimeWindows.searchIndex, heq]
    rw [hidx]
    refine ⟨?_, ?_, by omega⟩
    · intro j hj
      exact le_trans (hmono j b (by omega) (by omega)) hble
    · intro hlt
      exact hB (b + 1) (Nat.le_refl _) (by omega)
  · have hidx : tws.searchIndex now = 0 := by
      simp only [TimeWindows.searchIndex, heq]
    rw [hidx]
    exact ⟨fun j hj => absurd hj (by omega), fun hlt => hall 0 (by omega), by omega⟩

/-- A chronological non-overlapping window list: every window is an honest
interval (`start ≤ end`, the `TimeWindow::new` assertion) and consecutive
windows satisfy `w[i].end ≤ w[i+1].start` (the `add_window` assertion). -/
def Chronological (tws : TimeWindows) : Prop :=
  (∀ w ∈ tws.windows, w.start ≤ w.stop) ∧
  List.Chain' (fun a b => a.stop ≤ b.start) tws.windows

theorem getD_map_stop (tws : TimeWindows) (k : Nat) (hk : k < tws.windows.length) :
    (tws.windows.map (fun w => w.stop)).getD k 0 = (tws.windows.get ⟨k, hk⟩).stop := by
  rw [List.getD_eq_getElem?_getD, List.getElem?_map]
  simp [List.getElem?_eq_getElem hk]

theorem chron_monoEnds (tws : TimeWindows) (h : Chronological tws) :
    MonoEnds (tws.windows.map (fun w => w.stop)) := by
  obtain ⟨hws, hchain⟩ := h
  have hgetD := getD_map_stop tws
  have hstep : ∀ k (hk : k + 1 < tws.windows.length),
      (tws.windows.get ⟨k, by omega⟩).stop ≤ (tws.windows.get ⟨k + 1, hk⟩).stop := by
    intro k hk
    have h1 := List.chain'_iff_get.mp hchain k (by omega)
    have h2 := hws (tws.windows.get ⟨k + 1, hk⟩) (tws.windows.get_mem _ _)
    exact le_trans h1 h2
  have haux : ∀ (d i : Nat) (hd : i + d < tws.windows.length),
      (tws.windows.get ⟨i, by omega⟩).stop ≤ (tws.windows.get ⟨i + d, hd⟩).stop := by
    intro d
    induction d with
    | zero => intro i hd; exact le_of_eq rfl
    | succ m ihm =>
      intro i hd
      exact le_trans (ihm i (by omega)) (hstep (i + m) (by omega))
  intro i j hij hjlen
  simp only [List.length_map] at hjlen
  rw [hgetD i (by omega), hgetD j hjlen]
  have := haux (j - i) i (by omega)
  simpa [Nat.add_sub_cancel' hij] using this

/-- C6: on a chronological non-overlapping window list with a non-negative
need, `find_next_fitting_time(now, need, must_fit = false)` returns `None`
iff no window end is strictly past `now` (in particular when the list is
empty); otherwise, with `i` the first index whose window end is strictly
greater than `now`, it returns
`[max(windows[i].start, now), max(windows[i].start, now) + min(need, windows[i].duration())]`. -/
theorem claim_C6 (tws : TimeWindows) (now need : Int) (hch : Chronological tws)
    (hneed : 0 ≤ need) :
    (tws.find_next_fitting_time now need false = none ↔ ∀ w ∈ tws.windows, w.stop ≤ now) ∧
    (∀ (i : Nat) (w : TimeWindow), tws.windows[i]? = some w → now < w.stop →
      (∀ (j : Nat) (wj : TimeWindow), j < i → tws.windows[j]? = some wj → wj.stop ≤ now) →
      tws.find_next_fitting_time now need false =
        some ⟨max w.start now, max w.start now + min need w.duration⟩) := by
  by_cases hemp : tws.windows = []
  · constructor
    · simp [TimeWindows.find_next_fitting_time, hemp]
    · intro i w hget hlt hfirst
      rw [hemp] at hget
      simp at hget
  · have hne : ¬ tws.windows.length = 0 := by
      simpa [List.length_eq_zero] using hemp
    have hmono := chron_monoEnds tws hch
    obtain ⟨hS1, hS2, hS3⟩ := searchIndex_spec tws now hmono hne
    have hfind : tws.find_next_fitting_time now need false =
        (if tws.searchIndex now = tws.windows.length then none
        else some ⟨max (tws.windows.getD (tws.searchIndex now) ⟨0, 0⟩).start now,
          max (tws.windows.getD (tws.searchIndex now) ⟨0, 0⟩).start now +
            min (tws.windows.getD (tws.searchIndex now) ⟨0, 0⟩).duration need⟩) := by
      unfold TimeWindows.find_next_fitting_time
      rw [if_neg (by simp [hemp] : ¬ tws.windows.isEmpty = true)]
    constructor
    · rw [hfind]
      constructor
      · intro hnone
        by_cases hieq : tws.searchIndex now = tws.windows.length
        · intro w hw
          obtain ⟨⟨k, hklt⟩, hget⟩ := List.mem_iff_get.mp hw
          have := hS1 k (by omega)
          rw [getD_map_stop tws k hklt, hget] at this
          exact this
        · rw [if_neg hieq] at hnone
          cases hnone
      · intro hall
        have hieq : tws.searchIndex now = tws.windows.length := by
          by_contra hne2
          have hlt2 : tws.searchIndex now < tws.windows.length := by omega
          have h2 := hS2 hlt2
          rw [getD_map_stop tws _ hlt2] at h2
          have h3 := hall (tws.windows.get ⟨tws.searchIndex now, hlt2⟩)
            (tws.windows.get_mem _ _)
          omega
        rw [if_pos hieq]
    · intro i w hget hlt hfirst
      obtain ⟨hilen, hgetEq⟩ := List.getElem?_eq_some.mp hget
      have hidx : tws.searchIndex now = i := by
        rcases Nat.lt_trichotomy (tws.searchIndex now) i with h | h | h
        · have hlt2 : tws.searchIndex now < tws.windows.length := by omega
          have h2 := hS2 hlt2
          rw [getD_map_stop tws _ hlt2] at h2
          have h3 := hfirst (tws.searchIndex now)
            (tws.windows.get ⟨tws.searchIndex now, hlt2⟩) h
            (by simp [List.getElem?_eq_getElem hlt2, List.get_eq_getElem])
          omega
        · exact h
        · have h2 := hS1 i h
          rw [getD_map_stop tws i hilen] at h2
          have : (tws.windows.get ⟨i, hilen⟩).stop = w.stop := by
            simp [List.get_eq_getElem, hgetEq]
          omega
      have hgetD : tws.windows.getD (tws.searchIndex now) ⟨0, 0⟩ = w := by
        rw [hidx, List.getD_eq_getElem?_getD, hget]
        rfl
      rw [hfind, if_neg (by omega), hgetD, Int.min_comm need w.duration]

/-- Witness for C6: two windows `[0,10]` and `[20,30]`, `now = 12`,
`need = 5`; the first window ending past 12 is `[20,30]`, and the result is
clipped to `[20, 25]`. -/
theorem claim_C6_witness :
    TimeWindows.find_next_fitting_time ⟨[⟨0, 10⟩, ⟨20, 30⟩]⟩ 12 5 false = some ⟨20, 25⟩ := by
  have h := (claim_C6 ⟨[⟨0, 10⟩, ⟨20, 30⟩]⟩ 12 5
    ⟨by decide, by rw [List.chain'_cons]; exact ⟨by decide, List.chain'_singleton _⟩⟩
    (by decide)).2 1
    ⟨20, 30⟩ rfl (by decide) ?_
  · exact h.trans (by decide)
  · intro j wj hj hget
    have hj0 : j = 0 := by omega
    subst hj0
    simp only [List.getElem?_cons_zero, Option.some.injEq] at hget
    rw [← hget]
    decide

end TravelingRustling
